import Mathlib

/-!
Verification development for the sparse-coding inference solvers in
`sparsecoding/inference.py`.

The solvers are shallowly embedded over exact rationals (`ℚ`): tensors become
matrices `Matrix (Fin batch) (Fin basis) ℚ`, per-sample loops become
list/vector programs, and the numeric-backend capabilities the library
delegates (eigen-decomposition, pseudo-inverse, the global RNG) are passed in
as explicit parameters.  Floating-point rounding is not modelled; every
algebraic step of the Python code is.
-/

set_option maxRecDepth 8000

set_option linter.unusedVariables false

set_option linter.unnecessarySeqFocus false

open Matrix

/-- torch.sign on exact rationals: sign x ∈ {-1, 0, 1}, with sign 0 = 0. -/
def torchSign (x : ℚ) : ℚ := if 0 < x then 1 else if x < 0 then -1 else 0

/-- `LCA.threshold_nonlinearity` / `ISTA.threshold_nonlinearity`
(inference.py lines 117-133 and 371-387; both bodies are identical):
`a = (torch.abs(u) - threshold).clamp(min=0.); a = torch.sign(u) * a`,
written for one entry.  `clamp(min=0)` is `max · 0`. -/
def threshold_nonlinearity (θ u : ℚ) : ℚ := torchSign u * max (|u| - θ) 0

/-- The threshold nonlinearity applied entrywise to a (batch, basis) tensor,
exactly as the elementwise torch ops in `threshold_nonlinearity` do. -/
def threshMat {bs nb : ℕ} (θ : ℚ) (U : Matrix (Fin bs) (Fin nb) ℚ) :
    Matrix (Fin bs) (Fin nb) ℚ :=
  Matrix.of fun i j => threshold_nonlinearity θ (U i j)

/-- A torch tensor of rationals, as a nested list (ragged shapes never arise
in this development). -/
inductive Tensor where
  | scalar : ℚ → Tensor
  | tlist : List Tensor → Tensor

/-- The shape of a (well-formed) tensor: length of each nesting level. -/
def tensorShape : Tensor → List ℕ
  | .scalar _ => []
  | .tlist [] => [0]
  | .tlist (t :: ts) => (ts.length + 1) :: tensorShape t

/-- Shape of `torch.squeeze(t)`: all dimensions of size 1 are removed
(torch documentation for `Tensor.squeeze` with no `dim` argument). -/
def squeezedShape (t : Tensor) : List ℕ := (tensorShape t).filter (fun d => d != 1)

/-- The (batch, steps, basis) tensor that the batch-vectorized solvers build by
concatenating per-iteration (batch, 1, basis) snapshots along dim 1. -/
def matListToTensor {bs nb : ℕ} (ms : List (Matrix (Fin bs) (Fin nb) ℚ)) : Tensor :=
  .tlist ((List.finRange bs).map fun i =>
    .tlist (ms.map fun M => .tlist ((List.finRange nb).map fun j => .scalar (M i j))))

/-- Frobenius norm squared of a matrix (`torch.linalg.norm` squared). -/
def msumsq {r c : ℕ} (M : Matrix (Fin r) (Fin c) ℚ) : ℚ := ∑ i, ∑ j, M i j * M i j

/-- The early-stopping test `torch.linalg.norm(old - new) / torch.linalg.norm(old)
< epsilon` of LCA.infer (line 212) and Vanilla.infer (line 330), expressed over
exact rationals.  For `epsilon ≥ 0` and `norm(old) > 0` the float comparison is
equivalent to comparing the squares as below; for `norm(old) = 0` torch produces
nan/inf and the comparison is False, and for `epsilon < 0` it is also False,
which the first two conjuncts reproduce. -/
def normStopCond {bs nb : ℕ} (old new : Matrix (Fin bs) (Fin nb) ℚ) (eps : ℚ) : Bool :=
  decide (0 ≤ eps) && decide (0 < msumsq old) &&
    decide (msumsq (old - new) < eps * eps * msumsq old)

/-- Constructor configuration of LCA (inference.py lines 80-115). -/
structure LCAConfig where
  n_iter : ℕ
  coeff_lr : ℚ
  threshold : ℚ
  stop_early : Bool
  epsilon : ℚ
  return_all_coefficients : String

/-- Result of one `infer` call of a batch-vectorized solver: the list of
(batch, basis) slices making up the pre-squeeze (batch, steps, basis) output,
plus the content of the caller's `coeff_0` buffer after the call (`none` when
no warm start was passed). -/
structure InferOut (bs nb : ℕ) where
  steps : List (Matrix (Fin bs) (Fin nb) ℚ)
  callerBuf : Option (Matrix (Fin bs) (Fin nb) ℚ)

/-- The iteration loop of `LCA.infer` (lines 193-216), fuel = remaining
iterations.  Per iteration: optionally append a snapshot (membrane potential
`u`, or thresholded `u` when the mode is "active"), then
`a = thresh(u); du = b - u - (G aᵀ)ᵀ; u = u + lr du`, then the early-stop
break.  The string-identity tests (`is`) of the source compare interned
literals, i.e. string equality. -/
def lcaLoop {bs nb : ℕ} (cfg : LCAConfig) (bDrv : Matrix (Fin bs) (Fin nb) ℚ)
    (G : Matrix (Fin nb) (Fin nb) ℚ) :
    ℕ → Matrix (Fin bs) (Fin nb) ℚ → List (Matrix (Fin bs) (Fin nb) ℚ) →
    Matrix (Fin bs) (Fin nb) ℚ × List (Matrix (Fin bs) (Fin nb) ℚ)
  | 0, u, log => (u, log)
  | k + 1, u, log =>
    let log' := if cfg.return_all_coefficients ≠ "none" then
        log ++ [if cfg.return_all_coefficients = "active" then threshMat cfg.threshold u else u]
      else log
    let a := threshMat cfg.threshold u
    let du := bDrv - u - (G * a.transpose).transpose
    let u' := u + cfg.coeff_lr • du
    if cfg.stop_early && normStopCond u u' cfg.epsilon then (u', log')
    else lcaLoop cfg bDrv G k u' log'

/-- `LCA.infer` (lines 156-225).  `rng` is the ambient torch RNG stream; LCA
draws no random numbers, so it is ignored.  Initialization is `coeff_0` or
zeros; `b = (Dᵀ Xᵀ)ᵀ`, `G = Dᵀ D - I`.  After the loop the final slice is the
raw membrane potential when the mode is "membrane", else the thresholded
activations.  All updates to `u` are out-of-place (`u = u + ...`), so the
caller's `coeff_0` buffer is returned unchanged. -/
def lcaInfer {bs nf nb : ℕ} (cfg : LCAConfig) (dictionary : Matrix (Fin nf) (Fin nb) ℚ)
    (data : Matrix (Fin bs) (Fin nf) ℚ) (coeff0 : Option (Matrix (Fin bs) (Fin nb) ℚ))
    (rng : ℕ → ℚ) : InferOut bs nb :=
  let u0 := match coeff0 with
    | some c => c
    | none => 0
  let bDrv := (dictionary.transpose * data.transpose).transpose
  let G := dictionary.transpose * dictionary - 1
  let res := lcaLoop cfg bDrv G cfg.n_iter u0 []
  let steps := if cfg.return_all_coefficients = "membrane" then res.2 ++ [res.1]
    else res.2 ++ [threshMat cfg.threshold res.1]
  { steps := steps, callerBuf := coeff0 }

/-- Concrete LCA configuration used to exercise the batch-size-1 output shape:
one iteration, trajectory logging off. -/
def cfgC1 : LCAConfig :=
  { n_iter := 1, coeff_lr := 1/1000, threshold := 1/10, stop_early := false,
    epsilon := 1/100, return_all_coefficients := "none" }

/-- 2 × 2 identity dictionary (n_features = 2, n_basis = 2). -/
def dC1 : Matrix (Fin 2) (Fin 2) ℚ := !![1, 0; 0, 1]

/-- A single-sample data batch (batch_size = 1, n_features = 2). -/
def xC1 : Matrix (Fin 1) (Fin 2) ℚ := !![0, 0]

/-- Constructor configuration of Vanilla (inference.py lines 229-259). -/
structure VanillaConfig where
  n_iter : ℕ
  coeff_lr : ℚ
  sparsity_penalty : ℚ
  stop_early : Bool
  epsilon : ℚ
  return_all_coefficients : Bool

/-- `torch.sign` applied entrywise to a matrix. -/
def signMat {bs nb : ℕ} (A : Matrix (Fin bs) (Fin nb) ℚ) : Matrix (Fin bs) (Fin nb) ℚ :=
  Matrix.of fun i j => torchSign (A i j)

/-- `torch.rand((batch_size, n_basis))` modelled as reading the ambient RNG
stream in row-major order (each value is the next uniform draw in [0, 1)). -/
def randMat (bs nb : ℕ) (rng : ℕ → ℚ) : Matrix (Fin bs) (Fin nb) ℚ :=
  Matrix.of fun i j => rng (i.1 * nb + j.1)

/-- The iteration loop of `Vanilla.infer` (lines 318-336): optionally log `a`,
then `da = (Dᵀ rᵀ)ᵀ - λ sign(a); a = a + lr da`, the early-stop break, then the
residual update `r = X - (D aᵀ)ᵀ`. -/
def vanillaLoop {bs nf nb : ℕ} (cfg : VanillaConfig) (dictionary : Matrix (Fin nf) (Fin nb) ℚ)
    (data : Matrix (Fin bs) (Fin nf) ℚ) :
    ℕ → Matrix (Fin bs) (Fin nb) ℚ → Matrix (Fin bs) (Fin nf) ℚ →
    List (Matrix (Fin bs) (Fin nb) ℚ) →
    Matrix (Fin bs) (Fin nb) ℚ × List (Matrix (Fin bs) (Fin nb) ℚ)
  | 0, a, _, log => (a, log)
  | k + 1, a, r, log =>
    let log' := if cfg.return_all_coefficients then log ++ [a] else log
    let da := (dictionary.transpose * r.transpose).transpose - cfg.sparsity_penalty • signMat a
    let a' := a + cfg.coeff_lr • da
    if cfg.stop_early && normStopCond a a' cfg.epsilon then (a', log')
    else vanillaLoop cfg dictionary data k a' (data - (dictionary * a'.transpose).transpose) log'

/-- `Vanilla.infer` (lines 283-339).  Initialization is the warm start, or
`torch.rand(batch, basis) - 0.5` drawn from the ambient RNG stream `rng`
(line 313) — the only RNG consumption in the whole module.  All updates to `a`
are out-of-place, so the caller's `coeff_0` buffer is returned unchanged. -/
def vanillaInfer {bs nf nb : ℕ} (cfg : VanillaConfig) (dictionary : Matrix (Fin nf) (Fin nb) ℚ)
    (data : Matrix (Fin bs) (Fin nf) ℚ) (coeff0 : Option (Matrix (Fin bs) (Fin nb) ℚ))
    (rng : ℕ → ℚ) : InferOut bs nb :=
  let a0 := match coeff0 with
    | some c => c
    | none => randMat bs nb rng - Matrix.of fun _ _ => (1 : ℚ)/2
  let r0 := data - (dictionary * a0.transpose).transpose
  let res := vanillaLoop cfg dictionary data cfg.n_iter a0 r0 []
  { steps := res.2 ++ [res.1], callerBuf := coeff0 }

/-- Constructor configuration of ISTA (inference.py lines 343-369). -/
structure ISTAConfig where
  n_iter : ℕ
  sparsity_penalty : ℚ
  stop_early : Bool
  epsilon : ℚ
  return_all_coefficients : Bool

/-- The instance fields `ISTA.infer` mutates: `self.threshold` (absent until
`infer` first runs, line 421) and `self.coefficients` (set to `None` by
`__init__`, line 368, overwritten during `infer`). -/
structure ISTAFields (bs nb : ℕ) where
  threshold : Option ℚ
  coefficients : Option (Matrix (Fin bs) (Fin nb) ℚ)

/-- `stepsize = 1. / lipschitz_constant` (line 420), where the Lipschitz
constant is the largest eigenvalue of `DᵀD` returned by the eigen-decomposition
backend. -/
def ISTAstepsize (lip : ℚ) : ℚ := 1 / lip

/-- `self.threshold = stepsize * self.sparsity_penalty` (line 421). -/
def ISTAeffThreshold (lip penalty : ℚ) : ℚ := ISTAstepsize lip * penalty

/-- `torch.linalg.eigvalsh(DᵀD)[-1]` for a 1×1 dictionary `D = [[d]]`:
the Gram matrix is `[[d·d]]` and its only (hence largest) eigenvalue is
`d·d`. -/
def eigvalshMax1 (d : ℚ) : ℚ := d * d

/-- Loop state of `ISTA.infer`: pre-threshold variable `u`, the current value
of the instance field `self.coefficients` (always set, line 429), the residual,
the trajectory log, the content of the caller's `coeff_0` buffer, and whether
the local `u` still aliases that buffer (true until the rebinding
`u = self.coefficients` at line 450 replaces it by a fresh tensor). -/
structure ISTASt (bs nf nb : ℕ) where
  u : Matrix (Fin bs) (Fin nb) ℚ
  cf : Matrix (Fin bs) (Fin nb) ℚ
  residual : Matrix (Fin bs) (Fin nf) ℚ
  log : List (Matrix (Fin bs) (Fin nb) ℚ)
  buf : Option (Matrix (Fin bs) (Fin nb) ℚ)
  aliased : Bool

/-- ISTA's early-stop test `torch.mean(torch.abs(old_u - u) / stepsize)
< epsilon` (lines 444-446), over exact rationals. -/
def istaStop {bs nb : ℕ} (old new : Matrix (Fin bs) (Fin nb) ℚ) (stepsize eps : ℚ) : Bool :=
  decide ((∑ i, ∑ j, |old i j - new i j| / stepsize) / ((bs * nb : ℕ) : ℚ) < eps)

/-- The iteration loop of `ISTA.infer` (lines 432-453).  Per iteration:
optionally log `thresh(u)`, then the in-place update
`u -= stepsize * (residual @ D)` (which writes through to the caller's buffer
while `u` still aliases it), `self.coefficients = thresh(u)`, the early-stop
break, the residual update, and the rebinding `u = self.coefficients` (after
which `u` no longer aliases the caller's buffer). -/
def istaLoop {bs nf nb : ℕ} (cfg : ISTAConfig) (stepsize thr : ℚ)
    (dictionary : Matrix (Fin nf) (Fin nb) ℚ) (data : Matrix (Fin bs) (Fin nf) ℚ) :
    ℕ → ISTASt bs nf nb → ISTASt bs nf nb
  | 0, s => s
  | k + 1, s =>
    let log' := if cfg.return_all_coefficients then s.log ++ [threshMat thr s.u] else s.log
    let u1 := s.u - stepsize • (s.residual * dictionary)
    let buf1 := if s.aliased then some u1 else s.buf
    let cf1 := threshMat thr u1
    if cfg.stop_early && istaStop s.u u1 stepsize cfg.epsilon then
      { u := u1, cf := cf1, residual := s.residual, log := log', buf := buf1, aliased := s.aliased }
    else
      istaLoop cfg stepsize thr dictionary data k
        { u := cf1, cf := cf1, residual := (dictionary * cf1.transpose).transpose - data,
          log := log', buf := buf1, aliased := false }

/-- Result of an `ISTA.infer` call: pre-squeeze output slices, the caller's
`coeff_0` buffer content after the call, and the instance fields after the
call. -/
structure ISTAOut (bs nb : ℕ) where
  steps : List (Matrix (Fin bs) (Fin nb) ℚ)
  callerBuf : Option (Matrix (Fin bs) (Fin nb) ℚ)
  fields : ISTAFields bs nb

/-- `ISTA.infer` (lines 389-457).  `lip` is the largest eigenvalue of `DᵀD`
delivered by the eigen-decomposition backend (line 418); `f0` is the state of
the instance fields before the call.  Initialization: `u` is the warm start
(`coeff_0.to(device)` returns the caller's tensor itself when it already lives
on the dictionary's device, hence `aliased`) or zeros;
`self.coefficients = thresh(u)`; `residual = (D coeffᵀ)ᵀ - X`.  The returned
output is `log ++ [self.coefficients]` (line 456). -/
def istaInfer {bs nf nb : ℕ} (cfg : ISTAConfig) (lip : ℚ)
    (dictionary : Matrix (Fin nf) (Fin nb) ℚ) (data : Matrix (Fin bs) (Fin nf) ℚ)
    (coeff0 : Option (Matrix (Fin bs) (Fin nb) ℚ)) (f0 : ISTAFields bs nb) : ISTAOut bs nb :=
  let stepsize := ISTAstepsize lip
  let thr := ISTAeffThreshold lip cfg.sparsity_penalty
  let u0 := match coeff0 with
    | some c => c
    | none => 0
  let cf0 := threshMat thr u0
  let s0 : ISTASt bs nf nb :=
    { u := u0, cf := cf0, residual := (dictionary * cf0.transpose).transpose - data,
      log := [], buf := coeff0, aliased := coeff0.isSome }
  let sF := istaLoop cfg stepsize thr dictionary data cfg.n_iter s0
  { steps := sF.log ++ [sF.cf], callerBuf := sF.buf,
    fields := { threshold := some thr, coefficients := some sF.cf } }

/-- A tensor together with its autograd flag, for `PyTorchOptimizer.infer`
(the flag is mutated in place by `requires_grad_`). -/
structure GradTensor (bs nb : ℕ) where
  val : Matrix (Fin bs) (Fin nb) ℚ
  requiresGrad : Bool

/-- Result of `PyTorchOptimizer.infer`: the detached output matrix and the
caller's `coeff_0` tensor after the call. -/
structure PTOOut (bs nb : ℕ) where
  result : Matrix (Fin bs) (Fin nb) ℚ
  callerBuf : Option (GradTensor bs nb)

/-- `PyTorchOptimizer.infer` (lines 625-672).  The caller-supplied loss and
optimizer are external capabilities; one `zero_grad`/`backward`/`step` round is
modelled as the abstract in-place parameter update `optStep`.  With a warm
start, `coefficients = coeff_0.requires_grad_(True)` is the caller's tensor
itself: its autograd flag is flipped in place and every optimizer step writes
it in place, so after the call the caller's tensor holds the final iterate and
`requires_grad = True`. -/
def pytorchOptInfer {bs nb : ℕ}
    (optStep : Matrix (Fin bs) (Fin nb) ℚ → Matrix (Fin bs) (Fin nb) ℚ)
    (n_iter : ℕ) (coeff0 : Option (GradTensor bs nb)) : PTOOut bs nb :=
  match coeff0 with
  | some c =>
    { result := optStep^[n_iter] c.val,
      callerBuf := some { val := optStep^[n_iter] c.val, requiresGrad := true } }
  | none => { result := optStep^[n_iter] 0, callerBuf := none }

/-- Concrete ISTA configuration for the warm-start mutation statements:
one iteration, zero sparsity penalty. -/
def icfgW : ISTAConfig :=
  { n_iter := 1, sparsity_penalty := 0, stop_early := false, epsilon := 1/100,
    return_all_coefficients := false }

/-- The same ISTA configuration with a zero iteration budget. -/
def icfgW0 : ISTAConfig :=
  { n_iter := 0, sparsity_penalty := 0, stop_early := false, epsilon := 1/100,
    return_all_coefficients := false }

/-- 1 × 1 dictionary [[1]]. -/
def dW : Matrix (Fin 1) (Fin 1) ℚ := !![1]

/-- 1 × 1 data batch [[1]]. -/
def xW : Matrix (Fin 1) (Fin 1) ℚ := !![1]

/-- 1 × 1 warm-start coefficients [[0]]. -/
def cW : Matrix (Fin 1) (Fin 1) ℚ := !![0]

/-- Concrete Vanilla configuration (zero iterations, so the returned
coefficients are exactly the initial ones). -/
def vcfgW : VanillaConfig :=
  { n_iter := 0, coeff_lr := 1/1000, sparsity_penalty := 1/5, stop_early := false,
    epsilon := 1/100, return_all_coefficients := false }

/-- A torch float value, abstracted to exactly what the NaN guard can
distinguish: a finite rational, one of the two infinities, or NaN. -/
inductive FVal where
  | finite : ℚ → FVal
  | posinf : FVal
  | neginf : FVal
  | nan : FVal

/-- `torch.isnan` on one value: true only for NaN (not for infinities). -/
def isnanF : FVal → Bool
  | .nan => true
  | _ => false

/-- `torch.isfinite` on one value: true only for finite values. -/
def isfiniteF : FVal → Bool
  | .finite _ => true
  | _ => false

/-- `InferenceMethod.checknan` (inference.py lines 62-75): raises
`ValueError("InferenceMethod error: nan in %s." % name)` when
`torch.isnan(data).any()`, and returns otherwise. -/
def checknan (data : List FVal) (name : String) : Except String Unit :=
  if data.any isnanF then
    Except.error ("InferenceMethod error: nan in " ++ name ++ ".")
  else Except.ok ()

/-- Constructor configuration of IHT (inference.py lines 682-701). -/
structure IHTConfig where
  sparsity : ℚ
  n_iter : ℕ
  return_all_coefficients : Bool

/-- Constructor configuration of MP (lines 766-782). -/
structure MPConfig where
  sparsity : ℚ
  return_all_coefficients : Bool

/-- Constructor configuration of OMP (lines 853-869). -/
structure OMPConfig where
  sparsity : ℚ
  return_all_coefficients : Bool

/-- `LCA.__init__` (lines 80-115): stores the hyperparameters, raising
`ValueError` when `return_all_coefficients` is not one of
"none" / "membrane" / "active". -/
def LCAinit (n_iter : ℕ) (coeff_lr threshold : ℚ) (stop_early : Bool) (epsilon : ℚ)
    (return_all_coefficients : String) : Except String LCAConfig :=
  if return_all_coefficients = "none" ∨ return_all_coefficients = "membrane" ∨
      return_all_coefficients = "active" then
    Except.ok
      { n_iter := n_iter, coeff_lr := coeff_lr, threshold := threshold,
        stop_early := stop_early, epsilon := epsilon,
        return_all_coefficients := return_all_coefficients }
  else
    Except.error "Invalid input for return_all_coefficients. Valid inputs are: none, membrane, active."

/-- `IHT.__init__` (lines 682-701): stores sparsity and n_iter; the source
performs no validation of the sparsity value whatsoever. -/
def IHTinit (sparsity : ℚ) (n_iter : ℕ) (return_all_coefficients : Bool) :
    Except String IHTConfig :=
  Except.ok
    { sparsity := sparsity, n_iter := n_iter,
      return_all_coefficients := return_all_coefficients }

/-- `MP.__init__` (lines 766-782): stores sparsity; no validation. -/
def MPinit (sparsity : ℚ) (return_all_coefficients : Bool) : Except String MPConfig :=
  Except.ok { sparsity := sparsity, return_all_coefficients := return_all_coefficients }

/-- `OMP.__init__` (lines 853-869): stores sparsity; no validation. -/
def OMPinit (sparsity : ℚ) (return_all_coefficients : Bool) : Except String OMPConfig :=
  Except.ok { sparsity := sparsity, return_all_coefficients := return_all_coefficients }

/-- Whether a constructor call succeeded, i.e. did not raise. -/
def isOkE {α : Type} : Except String α → Bool
  | .ok _ => true
  | .error _ => false

/-- Dot product of two rational lists. -/
def dotL (v w : List ℚ) : ℚ := ((v.zip w).map fun p => p.1 * p.2).sum

/-- `D @ x` for a row-major matrix given as a list of rows. -/
def matVecL (D : List (List ℚ)) (x : List ℚ) : List ℚ := D.map fun row => dotL row x

/-- Elementwise subtraction of lists. -/
def vecSubL (v w : List ℚ) : List ℚ := (v.zip w).map fun p => p.1 - p.2

/-- Elementwise addition of lists. -/
def vecAddL (v w : List ℚ) : List ℚ := (v.zip w).map fun p => p.1 + p.2

/-- `r @ D` (row vector times matrix): entry j is Σ_i r_i · D_(i,j). -/
def rowMatL (r : List ℚ) (D : List (List ℚ)) : List ℚ := D.transpose.map fun c => dotL r c

/-- Insert an index into a list of indices kept sorted by decreasing key. -/
def insertDescBy (f : ℕ → ℚ) (j : ℕ) : List ℕ → List ℕ
  | [] => [j]
  | k :: rest => if f k < f j then j :: k :: rest else k :: insertDescBy f j rest

/-- Indices sorted by decreasing key — the `indices` returned by
`torch.sort(torch.abs(temp), dim=1, descending=True)` (line 748; the order
among equal keys is left unspecified by torch, any fixed choice models it, and
no theorem below depends on that choice). -/
def sortDescBy (f : ℕ → ℚ) : List ℕ → List ℕ
  | [] => []
  | j :: rest => insertDescBy f j (sortDescBy f rest)

/-- `K = np.ceil(self.sparsity * n_basis).astype(int)` (lines 726, 807, 894),
as a natural number — faithful to the Python slice `0:K` for positive
sparsity. -/
def ihtK (sparsity : ℚ) (nb : ℕ) : ℕ := ⌈sparsity * nb⌉₊

/-- One IHT iteration on one sample (lines 742-750):
`temp = coeff + (y - (D coeffᵀ)ᵀ) @ D`, then the kWTA projection — a fresh
zero row receiving the entries of `temp` at the K largest-magnitude indices
(`coeff[0, indices[0, 0:K]] = temp[0, indices[0, 0:K]]`). -/
def ihtStep (D : List (List ℚ)) (K : ℕ) (y coeff : List ℚ) : List ℚ :=
  let nb := (D.headD []).length
  let temp := vecAddL coeff (rowMatL (vecSubL y (matVecL D coeff)) D)
  let top := (sortDescBy (fun j => |temp.getD j 0|) (List.range nb)).take K
  (List.range nb).map fun j => if j ∈ top then temp.getD j 0 else 0

/-- `IHT.infer` (lines 705-756): per sample, `n_iter` iterations of `ihtStep`
starting from a zero coefficient row, collected over the batch. -/
def ihtInfer (cfg : IHTConfig) (D : List (List ℚ)) (X : List (List ℚ)) : List (List ℚ) :=
  let nb := (D.headD []).length
  let K := ihtK cfg.sparsity nb
  X.map fun y => (ihtStep D K y)^[cfg.n_iter] (List.replicate nb 0)

/-- Concrete IHT configuration: sparsity 1/2, two iterations. -/
def cfg7 : IHTConfig := { sparsity := 1/2, n_iter := 2, return_all_coefficients := false }

/-- 2 × 2 identity dictionary as a list of rows. -/
def d7 : List (List ℚ) := [[1, 0], [0, 1]]

/-- One-sample batch [[3, 4]]. -/
def x7 : List (List ℚ) := [[3, 4]]

/-- Column j of the dictionary, as a vector. -/
def colv {nf nb : ℕ} (D : Matrix (Fin nf) (Fin nb) ℚ) (j : Fin nb) : Fin nf → ℚ :=
  fun i => D i j

/-- Squared Euclidean norm of a vector (`torch.norm(v)` squared); the residual
norm of the claim is non-increasing iff this is. -/
def sumsq {m : ℕ} (v : Fin m → ℚ) : ℚ := v ⬝ᵥ v

/-- The torch advanced-indexing assignment `coeff[0, inds] = x`:
positions are written left to right, so on duplicate indices the later write
wins; positions not listed keep their value. -/
def scatter {nb : ℕ} (c : Fin nb → ℚ) : List (Fin nb) → (ℕ → ℚ) → (Fin nb → ℚ)
  | [], _ => c
  | j :: rest, x => scatter (Function.update c j (x 0)) rest (fun p => x (p + 1))

/-- The linear combination Σ_p x(p) · (column inds(p) of D): what
`D @ coeffᵀ` yields when `coeff` holds `x` at the (distinct) positions
`inds` and 0 elsewhere. -/
def recon {nf nb : ℕ} (D : Matrix (Fin nf) (Fin nb) ℚ) :
    List (Fin nb) → (ℕ → ℚ) → (Fin nf → ℚ)
  | [], _ => 0
  | j :: rest, x => (x 0 • colv D j) + recon D rest (fun p => x (p + 1))

/-- First-occurrence argmax over `Fin nb` (torch.argmax: "If there are
multiple maximal values then the indices of the first maximal value are
returned"). -/
def argmaxFin {nb : ℕ} [NeZero nb] (f : Fin nb → ℚ) : Fin nb :=
  (List.finRange nb).foldl (fun best j => if f best < f j then j else best)
    ⟨0, Nat.pos_of_ne_zero (NeZero.ne nb)⟩

/-- The atom selection `ind = torch.argmax(torch.abs(dp) / dictionary_norms)`
(lines 831, 924).  For nonzero columns, |dp_j| / ‖d_j‖ and dp_j² / ‖d_j‖²
induce the same order with the same ties, so over exact rationals the argmax
is computed on the squared quotient. -/
def ompSelect {nf nb : ℕ} [NeZero nb] (D : Matrix (Fin nf) (Fin nb) ℚ)
    (dp : Fin nb → ℚ) : Fin nb :=
  argmaxFin (fun j => dp j * dp j / (colv D j ⬝ᵥ colv D j))

/-- Per-sample OMP loop state (inference.py lines 904-933): the list of chosen
atom indices, the coefficient row, and the residual `y_res = y - (D coeffᵀ)ᵀ`. -/
structure OMPSt (nf nb : ℕ) where
  inds : List (Fin nb)
  coeff : Fin nb → ℚ
  y_res : Fin nf → ℚ

/-- One OMP greedy step (lines 918-933): select the most activated atom
against the residual, append it to the index list, solve the least-squares
refit `coeff[0, indices] = pinv(D[:, indices]) @ yᵀ` through the
pseudo-inverse backend `B`, and recompute the residual from the refit.
`B inds y` returns the entries of `pinv(D[:, inds]) @ y` by position. -/
def ompStep {nf nb : ℕ} [NeZero nb] (B : List (Fin nb) → (Fin nf → ℚ) → ℕ → ℚ)
    (D : Matrix (Fin nf) (Fin nb) ℚ) (y : Fin nf → ℚ) (s : OMPSt nf nb) : OMPSt nf nb :=
  let dp := fun j => s.y_res ⬝ᵥ colv D j
  let ind := ompSelect D dp
  let inds := s.inds ++ [ind]
  let x := B inds y
  let coeff := scatter s.coeff inds x
  { inds := inds, coeff := coeff, y_res := fun i => y i - D.mulVec coeff i }

/-- The per-sample OMP iteration after t of its K steps, starting from the
empty active set, zero coefficients, and residual `y` (lines 909-916). -/
def ompRun {nf nb : ℕ} [NeZero nb] (B : List (Fin nb) → (Fin nf → ℚ) → ℕ → ℚ)
    (D : Matrix (Fin nf) (Fin nb) ℚ) (y : Fin nf → ℚ) : ℕ → OMPSt nf nb
  | 0 => { inds := [], coeff := fun _ => 0, y_res := y }
  | t + 1 => ompStep B D y (ompRun B D y t)

/-- Zero out the listed positions of a vector. -/
def zeroOn {nb : ℕ} (c : Fin nb → ℚ) (inds : List (Fin nb)) : Fin nb → ℚ :=
  fun k => if k ∈ inds then 0 else c k

/-- A pseudo-inverse backend for the witness run: position p of the solution
is `y (inds p)`.  For an orthonormal dictionary and duplicate-free indices this
is the exact least-squares solution `pinv(D[:, inds]) @ y`. -/
def backendW : List (Fin 2) → (Fin 2 → ℚ) → ℕ → ℚ :=
  fun inds y p =>
    match inds.get? p with
    | some j => y j
    | none => 0

/-- 2 × 2 identity dictionary for the OMP runs. -/
def dOmpW : Matrix (Fin 2) (Fin 2) ℚ := !![1, 0; 0, 1]

/-- Witness sample (1, 2). -/
def yOmpW : Fin 2 → ℚ := ![1, 2]

/-- `torch.linalg.pinv(D[:, inds]) @ y` for the two calls arising in the
counterexample run below (identity dictionary, active sets [0] and [0, 0]).
`pinv([[1],[0]]) = [[1, 0]]` and `pinv([[1,1],[0,0]]) = [[1/2, 0], [1/2, 0]]`;
the lemmas `ompP1_moore_penrose` / `ompP2_moore_penrose` verify the four
Moore-Penrose axioms, which determine the pseudo-inverse uniquely. -/
def backendPinv : List (Fin 2) → (Fin 2 → ℚ) → ℕ → ℚ :=
  fun inds y p =>
    if inds = [0] then (if p = 0 then y 0 else 0)
    else if inds = [0, 0] then (if p ≤ 1 then y 0 / 2 else 0)
    else 0

/-- `D[:, [0]]` for the identity dictionary. -/
def ompA1 : Matrix (Fin 2) (Fin 1) ℚ := !![1; 0]

/-- The Moore-Penrose pseudo-inverse of `ompA1`. -/
def ompP1 : Matrix (Fin 1) (Fin 2) ℚ := !![1, 0]

/-- `D[:, [0, 0]]` for the identity dictionary: the duplicated column. -/
def ompA2 : Matrix (Fin 2) (Fin 2) ℚ := !![1, 1; 0, 0]

/-- The Moore-Penrose pseudo-inverse of `ompA2` (it splits the weight evenly
between the two copies of the column). -/
def ompP2 : Matrix (Fin 2) (Fin 2) ℚ := !![1/2, 0; 1/2, 0]

/-- The sample of the counterexample run: (1, 0). -/
def yOmpC : Fin 2 → ℚ := ![1, 0]

/-- Per-sample MP loop state (inference.py lines 817-837): the coefficient row
and the remaining signal `y` (which MP explains away in place of a residual
variable). -/
structure MPSt (nf nb : ℕ) where
  coeff : Fin nb → ℚ
  y : Fin nf → ℚ

/-- One MP greedy step (lines 825-837): `dp = y @ D`, select the most
activated atom by `torch.argmax(torch.abs(dp)/dictionary_norms)` (the same
selection rule as OMP, lines 828-831 = 921-924, embedded by `ompSelect`),
assign `coeff[0, ind] = dp[0, ind]`, and explain the atom away:
`y = y - dp[0, ind] * D[:, ind]ᵀ`. -/
def mpStep {nf nb : ℕ} [NeZero nb] (D : Matrix (Fin nf) (Fin nb) ℚ)
    (s : MPSt nf nb) : MPSt nf nb :=
  let dp := fun j => s.y ⬝ᵥ colv D j
  let ind := ompSelect D dp
  { coeff := Function.update s.coeff ind (dp ind),
    y := fun i => s.y i - dp ind * D i ind }

/-- The per-sample MP iteration of `MP.infer` after t of its K steps, from a
zero coefficient row (lines 817-839; the batch loop maps this over the
samples).  `rng` is the ambient torch RNG stream: the source contains no
random draw, so it is never read. -/
def mpRun {nf nb : ℕ} [NeZero nb] (D : Matrix (Fin nf) (Fin nb) ℚ)
    (y0 : Fin nf → ℚ) (rng : ℕ → ℚ) : ℕ → MPSt nf nb
  | 0 => { coeff := fun _ => 0, y := y0 }
  | t + 1 => mpStep D (mpRun D y0 rng t)

/-- Constructor configuration of LSM (inference.py lines 466-499). -/
structure LSMConfig where
  n_iter : ℕ
  n_iter_LSM : ℕ
  beta : ℚ
  alpha : ℚ
  sigma : ℚ
  sparse_threshold : ℚ

/-- `LSM.lsm_Loss` (lines 501-530): per-sample loss
`(1/(2σ²))·‖X - (D Aᵀ)ᵀ‖² + Σ_j λ_ij·|A_ij|`. -/
def lsmLoss {bs nf nb : ℕ} (sigma : ℚ) (data : Matrix (Fin bs) (Fin nf) ℚ)
    (dictionary : Matrix (Fin nf) (Fin nb) ℚ)
    (coefficients lambdas : Matrix (Fin bs) (Fin nb) ℚ) : Fin bs → ℚ :=
  fun i =>
    (1 / (2 * sigma ^ 2)) *
        (∑ k, (data i k - (dictionary * coefficients.transpose).transpose i k) ^ 2) +
      ∑ j, lambdas i j * |coefficients i j|

/-- The outer reweighting loop of `LSM.infer` (lines 556-587):
`lambdas = (α+1)/(β+|A|)` from the previous outer iteration's solution, then
reset A to zero and run the inner loop.  The inner loop (lines 566-587) — a
fresh Adam instance driven by reverse-mode gradients of `lsmLoss` for `n_iter`
steps from the zero initialization — is the numeric-backend capability
`inner`: a function of the lambdas (data, dictionary, loss and iteration count
being fixed), deterministic for a deterministic optimizer. -/
def lsmOuter {bs nb : ℕ} (cfg : LSMConfig)
    (inner : Matrix (Fin bs) (Fin nb) ℚ → Matrix (Fin bs) (Fin nb) ℚ) :
    ℕ → Matrix (Fin bs) (Fin nb) ℚ → Matrix (Fin bs) (Fin nb) ℚ
  | 0, A => A
  | t + 1, A =>
    let lambdas := Matrix.of fun i j => (cfg.alpha + 1) / (cfg.beta + |A i j|)
    lsmOuter cfg inner t (inner lambdas)

/-- `LSM.infer` (lines 532-593): `n_iter_LSM` outer reweighting iterations
from zero coefficients, then the final hard sparsification
`coefficients[|coefficients| < sparse_threshold] = 0` (lines 590-591).
`rng` is the ambient torch RNG stream, never read by the source. -/
def lsmInfer {bs nb : ℕ} (cfg : LSMConfig)
    (inner : Matrix (Fin bs) (Fin nb) ℚ → Matrix (Fin bs) (Fin nb) ℚ)
    (rng : ℕ → ℚ) : Matrix (Fin bs) (Fin nb) ℚ :=
  let A := lsmOuter cfg inner cfg.n_iter_LSM 0
  Matrix.of fun i j => if |A i j| < cfg.sparse_threshold then 0 else A i j

/-- `ISTA.infer` executed under an ambient torch RNG stream: lines 389-457
contain no random draw, so the stream is never read. -/
def istaInferRng {bs nf nb : ℕ} (cfg : ISTAConfig) (lip : ℚ)
    (dictionary : Matrix (Fin nf) (Fin nb) ℚ) (data : Matrix (Fin bs) (Fin nf) ℚ)
    (coeff0 : Option (Matrix (Fin bs) (Fin nb) ℚ)) (f0 : ISTAFields bs nb)
    (rng : ℕ → ℚ) : ISTAOut bs nb :=
  istaInfer cfg lip dictionary data coeff0 f0

/-- `IHT.infer` executed under an ambient torch RNG stream: lines 705-756
contain no random draw, so the stream is never read. -/
def ihtInferRng (cfg : IHTConfig) (D X : List (List ℚ)) (rng : ℕ → ℚ) :
    List (List ℚ) :=
  ihtInfer cfg D X

/-- The per-sample OMP run executed under an ambient torch RNG stream:
lines 873-937 contain no random draw, so the stream is never read. -/
def ompRunRng {nf nb : ℕ} [NeZero nb] (B : List (Fin nb) → (Fin nf → ℚ) → ℕ → ℚ)
    (D : Matrix (Fin nf) (Fin nb) ℚ) (y : Fin nf → ℚ) (t : ℕ) (rng : ℕ → ℚ) :
    OMPSt nf nb :=
  ompRun B D y t

/-- `PyTorchOptimizer.infer` executed under an ambient torch RNG stream:
lines 625-672 contain no random draw (randomness could enter only through the
caller-supplied optimizer/loss, i.e. through `optStep`). -/
def pytorchOptInferRng {bs nb : ℕ}
    (optStep : Matrix (Fin bs) (Fin nb) ℚ → Matrix (Fin bs) (Fin nb) ℚ)
    (n_iter : ℕ) (coeff0 : Option (GradTensor bs nb)) (rng : ℕ → ℚ) : PTOOut bs nb :=
  pytorchOptInfer optStep n_iter coeff0

/-- C1: the claim says the returned coefficient tensor has shape exactly
(batch, basis) when logging is off, including batch size 1.  Evaluating the
embedded `LCA.infer` at batch_size = 1, n_basis = 2, n_iter = 1, logging off:
the pre-squeeze output has shape (1, 1, 2) and `torch.squeeze` collapses the
batch dimension as well, so the returned shape is (2,), not (1, 2) — which
also contradicts the docstring of `LCA.infer` ("Returns coefficients :
(n_samples, n_basis)"). -/
theorem C1_batch1_shape :
    squeezedShape (matListToTensor (lcaInfer cfgC1 dC1 xC1 none (fun _ => 0)).steps) = [2] ∧
    [2] ≠ [1, 2] := by
  constructor
  · decide
  · decide

/-- C2: the soft-threshold nonlinearity returns 0 where |u| ≤ θ and
sign(u)·(|u| - θ) where |u| > θ, for every configured threshold θ ≥ 0.
This is the entrywise function both `LCA.threshold_nonlinearity` and
`ISTA.threshold_nonlinearity` apply. -/
theorem C2_soft_threshold (θ u : ℚ) (hθ : 0 ≤ θ) :
    (|u| ≤ θ → threshold_nonlinearity θ u = 0) ∧
    (θ < |u| → threshold_nonlinearity θ u = torchSign u * (|u| - θ)) := by
  constructor
  · intro h
    have : max (|u| - θ) 0 = 0 := max_eq_right (by linarith)
    simp [threshold_nonlinearity, this]
  · intro h
    have : max (|u| - θ) 0 = |u| - θ := max_eq_left (by linarith)
    simp [threshold_nonlinearity, this]

/-- Witness for C2 at concrete inputs θ = 1, u = 1/2 (below threshold) and
θ = 1, u = -3 (above threshold). -/
theorem C2_soft_threshold_witness :
    threshold_nonlinearity 1 (1/2) = 0 ∧
    threshold_nonlinearity 1 (-3) = torchSign (-3) * (|(-3 : ℚ)| - 1) := by
  refine ⟨(C2_soft_threshold 1 (1/2) (by norm_num)).1 ?_, ?_⟩
  · rw [abs_of_pos] <;> norm_num
  · exact (C2_soft_threshold 1 (-3) (by norm_num)).2 (by rw [abs_of_neg] <;> norm_num)

/-- Once the local `u` of `ISTA.infer` has been rebound away from the caller's
buffer, no later iteration writes that buffer. -/
theorem istaLoop_buf_not_aliased {bs nf nb : ℕ} (cfg : ISTAConfig) (stepsize thr : ℚ)
    (dictionary : Matrix (Fin nf) (Fin nb) ℚ) (data : Matrix (Fin bs) (Fin nf) ℚ)
    (k : ℕ) : ∀ s : ISTASt bs nf nb, s.aliased = false →
    (istaLoop cfg stepsize thr dictionary data k s).buf = s.buf := by
  induction k with
  | zero => intro s h; rfl
  | succ k ih =>
    intro s h
    rw [istaLoop]
    simp only [h, Bool.false_eq_true, if_false]
    split
    · rfl
    · rw [ih _ rfl]

/-- C10 (amended): with a warm start already on the dictionary's device and
`n_iter ≥ 1`, ISTA's first in-place subtraction `u -= stepsize*(residual @ D)`
overwrites the caller's `coeff_0` buffer with
`coeff_0 - stepsize * (((D thresh(coeff_0)ᵀ)ᵀ - X) @ D)` (later iterations act
on rebound tensors and leave the buffer alone), so the caller's tensor no
longer holds its original values whenever that update is nonzero;
PyTorchOptimizer flips `requires_grad` on the caller's tensor in place and the
optimizer's steps write it in place, leaving the final iterate in it; LCA and
Vanilla never write the caller's buffer. -/
theorem C10_warm_start_buffer {bs nf nb : ℕ} (icfg : ISTAConfig) (lip : ℚ)
    (dictionary : Matrix (Fin nf) (Fin nb) ℚ) (data : Matrix (Fin bs) (Fin nf) ℚ)
    (c0 : Matrix (Fin bs) (Fin nb) ℚ) (f0 : ISTAFields bs nb)
    (lcfg : LCAConfig) (vcfg : VanillaConfig) (rng : ℕ → ℚ)
    (optStep : Matrix (Fin bs) (Fin nb) ℚ → Matrix (Fin bs) (Fin nb) ℚ) (nI : ℕ) (g0 : Bool)
    (h : 1 ≤ icfg.n_iter) :
    (istaInfer icfg lip dictionary data (some c0) f0).callerBuf =
      some (c0 - ISTAstepsize lip •
        (((dictionary * (threshMat (ISTAeffThreshold lip icfg.sparsity_penalty) c0).transpose).transpose
            - data) * dictionary)) ∧
    (lcaInfer lcfg dictionary data (some c0) rng).callerBuf = some c0 ∧
    (vanillaInfer vcfg dictionary data (some c0) rng).callerBuf = some c0 ∧
    (pytorchOptInfer optStep nI (some ⟨c0, g0⟩)).callerBuf =
      some ⟨optStep^[nI] c0, true⟩ := by
  refine ⟨?_, rfl, rfl, rfl⟩
  obtain ⟨k, hk⟩ : ∃ k, icfg.n_iter = k + 1 := ⟨icfg.n_iter - 1, by omega⟩
  simp only [istaInfer, hk]
  rw [istaLoop]
  simp only [Option.isSome_some, if_true]
  split
  · rfl
  · rw [istaLoop_buf_not_aliased _ _ _ _ _ _ _ rfl]

/-- Witness for C10 at a concrete input: ISTA, 1 × 1 dictionary [[1]],
data [[1]], warm start [[0]], one iteration — the caller's buffer afterwards
holds [[1]], not its original [[0]]. -/
theorem C10_witness :
    ((istaInfer icfgW 1 dW xW (some cW) ⟨none, none⟩).callerBuf =
      some (cW - ISTAstepsize 1 •
        (((dW * (threshMat (ISTAeffThreshold 1 icfgW.sparsity_penalty) cW).transpose).transpose
            - xW) * dW))) ∧
    (cW - ISTAstepsize 1 •
        (((dW * (threshMat (ISTAeffThreshold 1 icfgW.sparsity_penalty) cW).transpose).transpose
            - xW) * dW)) 0 0 ≠ cW 0 0 := by
  constructor
  · exact (C10_warm_start_buffer icfgW 1 dW xW cW ⟨none, none⟩
      { n_iter := 1, coeff_lr := 0, threshold := 0, stop_early := false, epsilon := 0,
        return_all_coefficients := "none" } vcfgW (fun _ => 0)
      id 0 false (by norm_num [icfgW])).1
  · simp [icfgW, cW, dW, xW, ISTAstepsize, ISTAeffThreshold, threshMat, threshold_nonlinearity,
      torchSign, Matrix.mul_apply, Fin.sum_univ_one, Matrix.vecMul, Matrix.vecHead, Matrix.vecTail,
      Matrix.dotProduct]

/-- C10 counterexample to the claim as stated: with `n_iter = 0` the iteration
never runs, so ISTA returns the caller's warm-start buffer with its original
values intact, contradicting "the caller's tensor no longer holds its original
values after the call" for every call. -/
theorem C10_cex_no_mutation :
    (istaInfer icfgW0 1 dW xW (some cW) ⟨none, none⟩).callerBuf = some cW := rfl

/-- C9 (amended): `ISTA.infer` writes the instance fields `self.threshold`
(to `stepsize * sparsity_penalty`) and `self.coefficients` (to the final
coefficient tensor), and these values persist on the instance after the call,
whatever the fields held before; no other solver's `infer` writes any instance
field. -/
theorem C9_ista_fields_persist {bs nf nb : ℕ} (icfg : ISTAConfig) (lip : ℚ)
    (dictionary : Matrix (Fin nf) (Fin nb) ℚ) (data : Matrix (Fin bs) (Fin nf) ℚ)
    (coeff0 : Option (Matrix (Fin bs) (Fin nb) ℚ)) (f0 : ISTAFields bs nb) :
    (istaInfer icfg lip dictionary data coeff0 f0).fields.threshold =
      some (ISTAeffThreshold lip icfg.sparsity_penalty) ∧
    (istaInfer icfg lip dictionary data coeff0 f0).fields.coefficients ≠ none := by
  exact ⟨rfl, by simp [istaInfer]⟩

/-- C9 counterexample to the claim as stated: an ISTA instance whose fields are
fresh (`self.coefficients = None`, `self.threshold` unset) before `infer` has
both fields set after `infer` returns — its observable fields are not the same
before and after the call. -/
theorem C9_cex_fields_change :
    (istaInfer icfgW 1 dW xW (some cW) ⟨none, none⟩).fields.threshold ≠ (none : Option ℚ) ∧
    (istaInfer icfgW 1 dW xW (some cW) ⟨none, none⟩).fields.coefficients ≠ none := by
  constructor <;> simp [istaInfer]

/-- C8 (amended): for every solver, two calls to `infer` with identical
configuration, dictionary, data and warm start (and identical optimizer
capability for the optimizer-based solvers) return identical coefficient
matrices, with the single exception of Vanilla without a warm start.  In the
embedding, the only ambient state a repeated call can differ in is the global
torch RNG stream and (for ISTA) the instance fields, so determinism is: the
output of LCA (any `coeff_0`, including none), Vanilla with a warm start,
ISTA (also across any instance-field states, which its previous call
mutated), IHT, MP, OMP (same pseudo-inverse backend), PyTorchOptimizer (same
optimizer capability and warm-start values, across any `requires_grad` flag
states) and LSM (same inner-optimizer capability) is unchanged under every
pair of RNG streams.  Vanilla with `coeff_0 = None` reads the stream
(`torch.rand`, line 313) — the sole exception (`C8_cex_vanilla_rand`). -/
theorem C8_determinism {bs nf nb nf2 nb2 : ℕ} (lcfg : LCAConfig)
    (vcfg : VanillaConfig) (icfg : ISTAConfig) (lip : ℚ) (ihtcfg : IHTConfig)
    (lsmcfg : LSMConfig)
    (dictionary : Matrix (Fin nf) (Fin nb) ℚ) (data : Matrix (Fin bs) (Fin nf) ℚ)
    (coeff0 : Option (Matrix (Fin bs) (Fin nb) ℚ)) (c : Matrix (Fin bs) (Fin nb) ℚ)
    (f0 f0' : ISTAFields bs nb)
    (Dl Xl : List (List ℚ))
    (Ds : Matrix (Fin nf2) (Fin (nb2 + 1)) ℚ) (ys : Fin nf2 → ℚ) (t : ℕ)
    (B : List (Fin (nb2 + 1)) → (Fin nf2 → ℚ) → ℕ → ℚ)
    (optStep : Matrix (Fin bs) (Fin nb) ℚ → Matrix (Fin bs) (Fin nb) ℚ) (nI : ℕ)
    (g g' : Bool)
    (inner : Matrix (Fin bs) (Fin nb) ℚ → Matrix (Fin bs) (Fin nb) ℚ)
    (rng rng' : ℕ → ℚ) :
    lcaInfer lcfg dictionary data coeff0 rng = lcaInfer lcfg dictionary data coeff0 rng' ∧
    vanillaInfer vcfg dictionary data (some c) rng =
      vanillaInfer vcfg dictionary data (some c) rng' ∧
    istaInferRng icfg lip dictionary data coeff0 f0 rng =
      istaInferRng icfg lip dictionary data coeff0 f0' rng' ∧
    ihtInferRng ihtcfg Dl Xl rng = ihtInferRng ihtcfg Dl Xl rng' ∧
    mpRun Ds ys rng t = mpRun Ds ys rng' t ∧
    ompRunRng B Ds ys t rng = ompRunRng B Ds ys t rng' ∧
    pytorchOptInferRng optStep nI (some { val := c, requiresGrad := g }) rng =
      pytorchOptInferRng optStep nI (some { val := c, requiresGrad := g' }) rng' ∧
    lsmInfer lsmcfg inner rng = lsmInfer lsmcfg inner rng' := by
  refine ⟨rfl, rfl, rfl, rfl, ?_, rfl, rfl, rfl⟩
  induction t with
  | zero => rfl
  | succ t ih => rw [mpRun, mpRun, ih]

/-- C8 counterexample to the claim as stated: Vanilla with `coeff_0 = None`
initializes from `torch.rand`, which reads (and advances) the global RNG, so
two otherwise identical calls that see different RNG states return different
coefficient matrices. -/
theorem C8_cex_vanilla_rand :
    ((vanillaInfer vcfgW dW xW none (fun _ => 0)).steps.headD 0) 0 0 ≠
      ((vanillaInfer vcfgW dW xW none (fun _ => 1/2)).steps.headD 0) 0 0 := by
  simp [vanillaInfer, vanillaLoop, vcfgW, randMat, dW, xW]

/-- C3 counterexample at the all-zero dictionary (1 feature, 1 basis element,
`D = [[0]]`): the largest eigenvalue of `DᵀD` is 0, so
`stepsize = 1/0` (`inf` in torch; `0` under Lean's rational division) and
`stepsize * λmax` is `nan` in torch and `0` here — in either semantics it is
not 1, so "for every dictionary" fails. -/
theorem C3_cex_zero_dictionary :
    ISTAstepsize (eigvalshMax1 0) * eigvalshMax1 0 ≠ 1 := by
  norm_num [ISTAstepsize, eigvalshMax1]

/-- C3 (amended): for every dictionary whose Gram matrix `DᵀD` has a nonzero
largest eigenvalue (i.e., every nonzero dictionary), the step size computed by
`ISTA.infer` satisfies `stepsize * λmax = 1` exactly, and the effective
soft threshold used by the iteration equals `stepsize * sparsity_penalty`. -/
theorem C3_stepsize_threshold (lip penalty : ℚ) (h : lip ≠ 0) :
    ISTAstepsize lip * lip = 1 ∧
    ISTAeffThreshold lip penalty = ISTAstepsize lip * penalty := by
  refine ⟨?_, rfl⟩
  field_simp [ISTAstepsize]

/-- Witness for C3 at the 1 × 1 dictionary [[2]]: λmax(DᵀD) = 4,
stepsize = 1/4, and the effective threshold for penalty 3 is 3/4. -/
theorem C3_witness :
    ISTAstepsize (eigvalshMax1 2) * eigvalshMax1 2 = 1 ∧
    ISTAeffThreshold (eigvalshMax1 2) 3 = ISTAstepsize (eigvalshMax1 2) * 3 :=
  C3_stepsize_threshold (eigvalshMax1 2) 3 (by norm_num [eigvalshMax1])

/-- C4 counterexample to the claim as stated: a tensor holding an infinity is
non-finite, yet `checknan` (which tests `torch.isnan` only) returns without
raising. -/
theorem C4_cex_inf_not_caught :
    checknan [FVal.posinf] "coefficients" = Except.ok () ∧ isfiniteF FVal.posinf = false := by
  exact ⟨rfl, rfl⟩

/-- C4 (amended): `checknan` raises an error whose message names the label iff
the tensor contains at least one NaN; infinities alone never trigger it; on an
all-finite tensor it returns without raising. -/
theorem C4_checknan_iff (data : List FVal) (name : String) :
    (checknan data name = Except.error ("InferenceMethod error: nan in " ++ name ++ ".") ↔
      data.any isnanF = true) ∧
    (data.all isfiniteF = true → checknan data name = Except.ok ()) := by
  refine ⟨⟨fun h => ?_, fun h => by simp [checknan, h]⟩, fun h => ?_⟩
  · by_contra hn
    simp [checknan, hn] at h
  · have hno : data.any isnanF = false := by
      rw [List.any_eq_false]
      intro x hx
      have hfin := List.all_eq_true.1 h x hx
      cases x <;> simp_all [isnanF, isfiniteF]
    simp [checknan, hno]

/-- Witness for C4 on a concrete all-finite tensor: no error is raised. -/
theorem C4_checknan_witness :
    checknan [FVal.finite 1, FVal.finite (-2)] "coefficients" = Except.ok () :=
  (C4_checknan_iff [FVal.finite 1, FVal.finite (-2)] "coefficients").2 rfl

/-- C5 counterexample to the claim as stated: IHT's constructor accepts the
out-of-range sparsity fraction 2 (outside (0, 1]) without raising. -/
theorem C5_cex_iht_accepts_oor :
    isOkE (IHTinit 2 10 false) = true ∧ ¬ ((0 : ℚ) < 2 ∧ (2 : ℚ) ≤ 1) := by
  refine ⟨rfl, ?_⟩
  norm_num

/-- C5 (amended): LCA's constructor succeeds exactly when the trajectory-mode
flag is one of "none" / "membrane" / "active" (raising synchronously
otherwise, and `infer` contains no configuration `raise`), but the IHT, MP and
OMP constructors accept every sparsity value — no out-of-range sparsity
fraction is rejected at construction time. -/
theorem C5_constructor_validation :
    (∀ (nI : ℕ) (lr thr eps : ℚ) (se : Bool) (r : String),
      isOkE (LCAinit nI lr thr se eps r) = true ↔
        (r = "none" ∨ r = "membrane" ∨ r = "active")) ∧
    (∀ (s : ℚ) (nI : ℕ) (rb : Bool), isOkE (IHTinit s nI rb) = true) ∧
    (∀ (s : ℚ) (rb : Bool), isOkE (MPinit s rb) = true) ∧
    (∀ (s : ℚ) (rb : Bool), isOkE (OMPinit s rb) = true) := by
  refine ⟨?_, fun _ _ _ => rfl, fun _ _ => rfl, fun _ _ => rfl⟩
  intro nI lr thr se eps r
  by_cases h : r = "none" ∨ r = "membrane" ∨ r = "active"
  · simp only [LCAinit, if_pos h, isOkE]
    simpa using h
  · simp only [LCAinit, if_neg h, isOkE]
    simpa using h

/-- Inserting into the index sort permutes a cons. -/
theorem insertDescBy_perm (f : ℕ → ℚ) (j : ℕ) (l : List ℕ) :
    List.Perm (insertDescBy f j l) (j :: l) := by
  induction l with
  | nil => exact List.Perm.refl _
  | cons k rest ih =>
    rw [insertDescBy]
    split
    · exact List.Perm.refl _
    · exact (List.Perm.cons k ih).trans (List.Perm.swap j k rest)

/-- The index sort is a permutation of its input. -/
theorem sortDescBy_perm (f : ℕ → ℚ) (l : List ℕ) : List.Perm (sortDescBy f l) l := by
  induction l with
  | nil => exact List.Perm.refl _
  | cons j rest ih => exact (insertDescBy_perm f j _).trans (List.Perm.cons j ih)

/-- One IHT iteration writes at most K positions of a fresh zero row, so the
result has at most K nonzero entries. -/
theorem ihtStep_sparse (D : List (List ℚ)) (K : ℕ) (y coeff : List ℚ) :
    (ihtStep D K y coeff).countP (fun x => x != 0) ≤ K := by
  unfold ihtStep
  set nb := (D.headD []).length with hnb
  set temp := vecAddL coeff (rowMatL (vecSubL y (matVecL D coeff)) D) with htemp
  set top := (sortDescBy (fun j => |temp.getD j 0|) (List.range nb)).take K with htop
  rw [List.countP_map]
  have h1 : (List.range nb).countP
      ((fun x => x != 0) ∘ fun j => if j ∈ top then temp.getD j 0 else 0) ≤
      (List.range nb).countP (fun j => decide (j ∈ top)) := by
    apply List.countP_mono_left
    intro j hj h
    by_cases hmem : j ∈ top
    · simpa using hmem
    · simp [Function.comp, hmem] at h
  refine h1.trans ?_
  rw [List.countP_eq_length_filter]
  have hsub : (List.range nb).filter (fun j => decide (j ∈ top)) ⊆ top := by
    intro x hx
    simpa using (List.mem_filter.1 hx).2
  have hnd : ((List.range nb).filter (fun j => decide (j ∈ top))).Nodup :=
    (List.nodup_range nb).filter _
  refine (hnd.subperm hsub).length_le.trans ?_
  exact (List.length_take_le K _)

/-- C7: every row of the coefficient matrix returned by `IHT.infer` has at
most `K = ceil(sparsity * n_basis)` nonzero entries (for a configured
sparsity > 0, the range on which the integer `K` matches the Python slice). -/
theorem C7_iht_row_sparsity (cfg : IHTConfig) (D X : List (List ℚ)) (row : List ℚ)
    (hrow : row ∈ ihtInfer cfg D X) (hs : 0 < cfg.sparsity) :
    row.countP (fun x => x != 0) ≤ ihtK cfg.sparsity (D.headD []).length := by
  simp only [ihtInfer] at hrow
  obtain ⟨y, hy, rfl⟩ := List.mem_map.1 hrow
  cases hn : cfg.n_iter with
  | zero =>
    simp [hn, List.countP_replicate]
  | succ k =>
    rw [Function.iterate_succ_apply']
    exact ihtStep_sparse _ _ _ _

/-- Witness for C7 at a concrete run: the single output row of
`IHT.infer` with sparsity 1/2 over 2 basis elements has at most K = 1 nonzero
entries. -/
theorem C7_witness :
    ((ihtInfer cfg7 d7 x7).headD []).countP (fun x => x != 0) ≤
      ihtK cfg7.sparsity (d7.headD []).length := by
  refine C7_iht_row_sparsity cfg7 d7 x7 _ ?_ (by norm_num [cfg7])
  simp [ihtInfer, x7]

/-- A position not listed keeps its value under `scatter`. -/
theorem scatter_apply_not_mem {nb : ℕ} (inds : List (Fin nb)) :
    ∀ (c : Fin nb → ℚ) (x : ℕ → ℚ) (j : Fin nb), j ∉ inds → scatter c inds x j = c j := by
  induction inds with
  | nil => intro c x j h; rfl
  | cons k rest ih =>
    intro c x j h
    rw [scatter, ih _ _ j (fun e => h (List.mem_cons_of_mem k e)),
      Function.update_apply,
      if_neg (fun e : j = k => h (by rw [e]; exact List.mem_cons_self k rest))]

/-- `scatter` commutes with updating a position it never writes. -/
theorem scatter_update_comm {nb : ℕ} (inds : List (Fin nb)) :
    ∀ (c : Fin nb → ℚ) (x : ℕ → ℚ) (j : Fin nb) (v : ℚ), j ∉ inds →
      scatter (Function.update c j v) inds x = Function.update (scatter c inds x) j v := by
  induction inds with
  | nil => intro c x j v h; rfl
  | cons k rest ih =>
    intro c x j v h
    have hjk : j ≠ k := fun e => h (e ▸ List.mem_cons_self k rest)
    have hjr : j ∉ rest := fun e => h (List.mem_cons_of_mem k e)
    rw [scatter, scatter, Function.update_comm hjk, ih _ _ _ _ hjr]

/-- Matrix-vector product after updating one coordinate of the vector. -/
theorem mulVec_update {nf nb : ℕ} (D : Matrix (Fin nf) (Fin nb) ℚ) (w : Fin nb → ℚ)
    (j : Fin nb) (v : ℚ) :
    D.mulVec (Function.update w j v) = D.mulVec w + (v - w j) • colv D j := by
  funext i
  simp only [Matrix.mulVec, Matrix.dotProduct, Pi.add_apply, Pi.smul_apply, smul_eq_mul, colv]
  have hupd : ∀ k, D i k * Function.update w j v k =
      Function.update (fun k => D i k * w k) j (D i j * v) k := by
    intro k
    by_cases hk : k = j
    · subst hk; simp
    · simp [Function.update_apply, hk]
  rw [Finset.sum_congr rfl (fun k _ => hupd k),
    Finset.sum_update_of_mem (Finset.mem_univ j),
    Finset.sum_eq_add_sum_diff_singleton (Finset.mem_univ j) (fun k => D i k * w k)]
  ring

/-- `D @ scatter(c, inds, x)` splits into the active-set combination plus the
contribution of the untouched positions (for duplicate-free index lists). -/
theorem mulVec_scatter {nf nb : ℕ} (D : Matrix (Fin nf) (Fin nb) ℚ) (inds : List (Fin nb)) :
    ∀ (c : Fin nb → ℚ) (x : ℕ → ℚ), inds.Nodup →
      D.mulVec (scatter c inds x) = recon D inds x + D.mulVec (zeroOn c inds) := by
  induction inds with
  | nil =>
    intro c x _
    have hz : zeroOn c [] = c := by funext k; simp [zeroOn]
    simp [scatter, recon, hz]
  | cons k rest ih =>
    intro c x hnd
    obtain ⟨hk, hrest⟩ := List.nodup_cons.1 hnd
    rw [scatter, scatter_update_comm rest _ _ _ _ hk, mulVec_update, ih _ _ hrest,
      scatter_apply_not_mem rest _ _ k hk, recon]
    have hz : zeroOn c (k :: rest) = Function.update (zeroOn c rest) k 0 := by
      funext m
      by_cases hm : m = k
      · subst hm; simp [zeroOn]
      · by_cases hmr : m ∈ rest <;> simp [zeroOn, hm, hmr]
    rw [hz, mulVec_update]
    have hzk : zeroOn c rest k = c k := by simp [zeroOn, hk]
    rw [hzk]
    funext i
    simp only [Pi.add_apply, Pi.smul_apply, smul_eq_mul]
    ring

/-- A vector orthogonal to every active column is orthogonal to every
combination of them. -/
theorem dot_recon_zero {nf nb : ℕ} (D : Matrix (Fin nf) (Fin nb) ℚ) (inds : List (Fin nb)) :
    ∀ (x : ℕ → ℚ) (v : Fin nf → ℚ), (∀ j ∈ inds, colv D j ⬝ᵥ v = 0) →
      v ⬝ᵥ recon D inds x = 0 := by
  induction inds with
  | nil => intro x v _; simp [recon]
  | cons k rest ih =>
    intro x v h
    have h1 : v ⬝ᵥ colv D k = 0 := by
      rw [dotProduct_comm]; exact h k (List.mem_cons_self k rest)
    have h2 := ih (fun p => x (p + 1)) v (fun j hj => h j (List.mem_cons_of_mem k hj))
    rw [recon, dotProduct_add, dotProduct_smul, h1, h2]
    simp

/-- Pythagoras: if `y - z'` is orthogonal both to `z'` and to `z`, the
residual against `z'` is no longer than the residual against `z`. -/
theorem resid_le_of_orth {m : ℕ} (y z z' : Fin m → ℚ)
    (h1 : (y - z') ⬝ᵥ z' = 0) (h2 : (y - z') ⬝ᵥ z = 0) :
    sumsq (y - z') ≤ sumsq (y - z) := by
  have hyz : y - z = (y - z') + (z' - z) := by
    funext i
    simp only [Pi.sub_apply, Pi.add_apply]
    ring
  have hab : (y - z') ⬝ᵥ (z' - z) = 0 := by
    rw [dotProduct_sub, h1, h2]; ring
  have hba : (z' - z) ⬝ᵥ (y - z') = 0 := by rw [dotProduct_comm]; exact hab
  have hbb : 0 ≤ (z' - z) ⬝ᵥ (z' - z) := Finset.sum_nonneg fun i _ => mul_self_nonneg _
  rw [sumsq, sumsq, hyz, dotProduct_add, add_dotProduct, add_dotProduct, hab, hba]
  linarith

/-- The index list after one more OMP step is the previous one with the newly
selected atom appended. -/
theorem ompRun_inds_succ {nf nb : ℕ} [NeZero nb] (B : List (Fin nb) → (Fin nf → ℚ) → ℕ → ℚ)
    (D : Matrix (Fin nf) (Fin nb) ℚ) (y : Fin nf → ℚ) (t : ℕ) :
    (ompRun B D y (t + 1)).inds =
      (ompRun B D y t).inds ++
        [ompSelect D (fun j => (ompRun B D y t).y_res ⬝ᵥ colv D j)] := rfl

/-- Positions outside the active set hold coefficient 0 throughout the run. -/
theorem ompRun_coeff_support {nf nb : ℕ} [NeZero nb] (B : List (Fin nb) → (Fin nf → ℚ) → ℕ → ℚ)
    (D : Matrix (Fin nf) (Fin nb) ℚ) (y : Fin nf → ℚ) (t : ℕ) :
    ∀ k : Fin nb, k ∉ (ompRun B D y t).inds → (ompRun B D y t).coeff k = 0 := by
  induction t with
  | zero => intro k _; rfl
  | succ t ih =>
    intro k hk
    have hc : (ompRun B D y (t + 1)).coeff =
        scatter ((ompRun B D y t).coeff) ((ompRun B D y (t + 1)).inds)
          (B ((ompRun B D y (t + 1)).inds) y) := rfl
    rw [hc, scatter_apply_not_mem _ _ _ _ hk]
    refine ih k (fun hmem => hk ?_)
    rw [ompRun_inds_succ]
    exact List.mem_append_left _ hmem

/-- With a duplicate-free active set, the reconstruction `D @ coeffᵀ` of a run
state is exactly the combination of the active columns with the backend's
least-squares solution. -/
theorem ompRun_mulVec_recon {nf nb : ℕ} [NeZero nb] (B : List (Fin nb) → (Fin nf → ℚ) → ℕ → ℚ)
    (D : Matrix (Fin nf) (Fin nb) ℚ) (y : Fin nf → ℚ) (t : ℕ)
    (hnd : (ompRun B D y t).inds.Nodup) :
    D.mulVec ((ompRun B D y t).coeff) =
      recon D ((ompRun B D y t).inds) (B ((ompRun B D y t).inds) y) := by
  cases t with
  | zero =>
    funext i
    simp [ompRun, recon, Matrix.mulVec, Matrix.dotProduct]
  | succ t =>
    have hc : (ompRun B D y (t + 1)).coeff =
        scatter ((ompRun B D y t).coeff) ((ompRun B D y (t + 1)).inds)
          (B ((ompRun B D y (t + 1)).inds) y) := rfl
    rw [hc, mulVec_scatter _ _ _ _ hnd]
    have hz : zeroOn ((ompRun B D y t).coeff) ((ompRun B D y (t + 1)).inds) =
        (0 : Fin nb → ℚ) := by
      funext k
      by_cases hk : k ∈ (ompRun B D y (t + 1)).inds
      · simp [zeroOn, hk]
      · have hkt : k ∉ (ompRun B D y t).inds := by
          intro hmem
          exact hk (by rw [ompRun_inds_succ]; exact List.mem_append_left _ hmem)
        simp [zeroOn, hk, ompRun_coeff_support B D y t k hkt]
    rw [hz]
    simp

/-- The stored residual of a run state is `y - D @ coeffᵀ`. -/
theorem ompRun_y_res {nf nb : ℕ} [NeZero nb] (B : List (Fin nb) → (Fin nf → ℚ) → ℕ → ℚ)
    (D : Matrix (Fin nf) (Fin nb) ℚ) (y : Fin nf → ℚ) (t : ℕ) :
    (ompRun B D y t).y_res = y - D.mulVec ((ompRun B D y t).coeff) := by
  cases t with
  | zero =>
    funext i
    simp [ompRun, Matrix.mulVec, Matrix.dotProduct]
  | succ t => rfl

/-- C6 (amended): across the K greedy steps of `OMP.infer`, the per-sample
residual norm is non-increasing, provided no atom is selected twice during the
run (the selected index list is duplicate-free) and the pseudo-inverse backend
returns least-squares solutions (each refit's residual is orthogonal to the
chosen atoms — the normal equations, which every Moore-Penrose pseudo-inverse
satisfies).  Stated on squared norms, which order exactly as the norms do. -/
theorem C6_omp_residual {nf nb : ℕ} [NeZero nb] (B : List (Fin nb) → (Fin nf → ℚ) → ℕ → ℚ)
    (D : Matrix (Fin nf) (Fin nb) ℚ) (y : Fin nf → ℚ) (t : ℕ)
    (hnd : (ompRun B D y (t + 1)).inds.Nodup)
    (hfit : ∀ j ∈ (ompRun B D y (t + 1)).inds,
      colv D j ⬝ᵥ (ompRun B D y (t + 1)).y_res = 0) :
    sumsq ((ompRun B D y (t + 1)).y_res) ≤ sumsq ((ompRun B D y t).y_res) := by
  have hndt : (ompRun B D y t).inds.Nodup := by
    rw [ompRun_inds_succ] at hnd
    exact (List.nodup_append.1 hnd).1
  have hsub : ∀ j ∈ (ompRun B D y t).inds, j ∈ (ompRun B D y (t + 1)).inds := by
    intro j hj
    rw [ompRun_inds_succ]
    exact List.mem_append_left _ hj
  have hres' : (ompRun B D y (t + 1)).y_res =
      y - D.mulVec ((ompRun B D y (t + 1)).coeff) := ompRun_y_res B D y (t + 1)
  have hres : (ompRun B D y t).y_res =
      y - D.mulVec ((ompRun B D y t).coeff) := ompRun_y_res B D y t
  rw [hres', hres]
  apply resid_le_of_orth
  · rw [← hres', ompRun_mulVec_recon B D y (t + 1) hnd]
    exact dot_recon_zero D _ _ _ hfit
  · rw [← hres', ompRun_mulVec_recon B D y t hndt]
    exact dot_recon_zero D _ _ _ (fun j hj => hfit j (hsub j hj))

/-- Witness for C6 at a concrete run: identity dictionary, sample (1, 2),
first greedy step (atom 1 selected, residual drops from ‖(1,2)‖² = 5 to
‖(1,0)‖² = 1). -/
theorem C6_witness :
    sumsq ((ompRun backendW dOmpW yOmpW 1).y_res) ≤
      sumsq ((ompRun backendW dOmpW yOmpW 0).y_res) := by
  have hsel : ompSelect dOmpW (fun j => (ompRun backendW dOmpW yOmpW 0).y_res ⬝ᵥ colv dOmpW j) =
      (1 : Fin 2) := by
    norm_num [ompSelect, argmaxFin, ompRun, colv, dOmpW, yOmpW, Matrix.dotProduct,
      Fin.sum_univ_two, List.finRange_succ_eq_map, List.finRange_zero]
  refine C6_omp_residual backendW dOmpW yOmpW 0 ?_ ?_
  · rw [ompRun_inds_succ, hsel]
    simp [ompRun]
  · intro j hj
    rw [ompRun_inds_succ, hsel] at hj
    simp only [ompRun, List.nil_append, List.mem_singleton] at hj
    subst hj
    rw [ompRun_y_res]
    have hc : (ompRun backendW dOmpW yOmpW 1).coeff =
        scatter (fun _ => 0) ((ompRun backendW dOmpW yOmpW 0).inds ++
          [ompSelect dOmpW (fun j => (ompRun backendW dOmpW yOmpW 0).y_res ⬝ᵥ colv dOmpW j)])
          (backendW ((ompRun backendW dOmpW yOmpW 0).inds ++
            [ompSelect dOmpW (fun j => (ompRun backendW dOmpW yOmpW 0).y_res ⬝ᵥ colv dOmpW j)])
            yOmpW) := rfl
    rw [hc, hsel]
    norm_num [ompRun, scatter, backendW, colv, dOmpW, yOmpW, Matrix.dotProduct,
      Matrix.mulVec, Fin.sum_univ_two, Function.update_apply]

/-- The four Moore-Penrose axioms for `ompA1` / `ompP1`. -/
theorem ompP1_moore_penrose :
    ompA1 * ompP1 * ompA1 = ompA1 ∧ ompP1 * ompA1 * ompP1 = ompP1 ∧
    (ompA1 * ompP1).transpose = ompA1 * ompP1 ∧
    (ompP1 * ompA1).transpose = ompP1 * ompA1 := by
  refine ⟨?_, ?_, ?_, ?_⟩ <;>
    · ext i j
      fin_cases i <;> fin_cases j <;>
        norm_num [ompA1, ompP1, Matrix.mul_apply, Fin.sum_univ_two, Fin.sum_univ_one]

/-- The four Moore-Penrose axioms for `ompA2` / `ompP2`. -/
theorem ompP2_moore_penrose :
    ompA2 * ompP2 * ompA2 = ompA2 ∧ ompP2 * ompA2 * ompP2 = ompP2 ∧
    (ompA2 * ompP2).transpose = ompA2 * ompP2 ∧
    (ompP2 * ompA2).transpose = ompP2 * ompA2 := by
  refine ⟨?_, ?_, ?_, ?_⟩ <;>
    · ext i j
      fin_cases i <;> fin_cases j <;>
        norm_num [ompA2, ompP2, Matrix.mul_apply, Fin.sum_univ_two]

/-- `backendPinv` on the active set [0] agrees with `ompP1 @ y`. -/
theorem backendPinv_models_pinv1 (y : Fin 2 → ℚ) (p : Fin 1) :
    backendPinv [0] y p.1 = ompP1.mulVec y p := by
  fin_cases p <;>
    norm_num [backendPinv, ompP1, Matrix.mulVec, Matrix.dotProduct, Fin.sum_univ_two]

/-- `backendPinv` on the active set [0, 0] agrees with `ompP2 @ y`. -/
theorem backendPinv_models_pinv2 (y : Fin 2 → ℚ) (p : Fin 2) :
    backendPinv [0, 0] y p.1 = ompP2.mulVec y p := by
  fin_cases p <;>
    norm_num [backendPinv, ompP2, Matrix.mulVec, Matrix.dotProduct, Fin.sum_univ_two] <;>
    ring

/-- C6 counterexample to the claim as stated: identity dictionary, sample
(1, 0), K = 2 steps (n_basis = 2, sparsity = 1).  Step 1 selects atom 0 and
fits it exactly (residual norm 0).  Step 2's residual is zero, so
`torch.argmax` returns the first index and atom 0 is selected again; the
pseudo-inverse of the duplicated column splits the weight as (1/2, 1/2), and
the advanced-indexing write `coeff[0, [0, 0]] = (1/2, 1/2)` leaves only 1/2 at
position 0.  The residual norm then grows from 0 to 1/2 — the per-sample
residual norm is not non-increasing. -/
theorem C6_cex_residual_increases :
    ¬ (sumsq ((ompRun backendPinv dOmpW yOmpC 2).y_res) ≤
        sumsq ((ompRun backendPinv dOmpW yOmpC 1).y_res)) := by
  have e2 : ompRun backendPinv dOmpW yOmpC 2 =
      ompStep backendPinv dOmpW yOmpC (ompStep backendPinv dOmpW yOmpC
        { inds := [], coeff := fun _ => 0, y_res := yOmpC }) := rfl
  have e1 : ompRun backendPinv dOmpW yOmpC 1 =
      ompStep backendPinv dOmpW yOmpC
        { inds := [], coeff := fun _ => 0, y_res := yOmpC } := rfl
  rw [e2, e1]
  norm_num [ompStep, ompSelect, argmaxFin, scatter, backendPinv, colv, dOmpW, yOmpC,
    sumsq, Matrix.dotProduct, Matrix.mulVec, Fin.sum_univ_two, Function.update_apply,
    List.finRange_succ_eq_map, List.finRange_zero]
